import Mathlib

/-!
# pony-ins-sample-app: the four application plugins

A shallow embedding of `src/pony_ins_sample_app.c`.

* The bus (`pony_struct`, `pony_imu`, `pony_sol`) keeps the fields the four plugins touch.
* `double` values are elements of an ordered field `K` (exact arithmetic; rounding is not
  modelled).  Definitions are computable and are evaluated at `K = ℚ`.
* Function-local `static` variables become fields of `World`.
* What the plugins obtain from outside this file (`pony_locate_token` + `atof` on the
  configuration text, `fopen`, `sscanf`, the width of `unsigned long`) is collected in `Env`.
* A `FILE*` is `Option` of a stream record; a stream records how many `fclose` calls were issued
  on it.  Using a `NULL` or already closed stream is flagged in `World.ub`.
-/

namespace PonyInsSampleApp

/-- Size of the line buffers, `PONY_INS_SAMPLE_APP_BUFFER_SIZE`. -/
def PONY_INS_SAMPLE_APP_BUFFER_SIZE : Nat := 1024

/-- A `double[3]` array. -/
structure Vec3 (K : Type) where
  x0 : K
  x1 : K
  x2 : K

/-- Navigation solution `pony->imu->sol`: the members read by the output writer. -/
structure pony_sol (K : Type) where
  llh : Vec3 K
  v : Vec3 K
  rpy : Vec3 K

/-- Inertial subsystem `*pony->imu`. -/
structure pony_imu (K : Type) where
  t : K
  w : Vec3 K
  w_valid : Bool
  f : Vec3 K
  f_valid : Bool
  sol : pony_sol K

/-- The bus `*pony`.  `imu = none` is `pony->imu == NULL`; `rad2deg` is
`pony->imu_const.rad2deg`. -/
structure pony_struct (K : Type) where
  t : K
  imu : Option (pony_imu K)
  rad2deg : K
  mode : Int

/-- Input stream behind `fp` of `pony_ins_sample_app_read_input`: the characters not yet read and
the number of `fclose` calls issued on the handle. -/
structure InFile where
  rest : List Char
  fclose_calls : Nat

/-- The header line written on initialisation of the output writer (it holds no newline). -/
def header_text : String :=
  "%   time[s]||   lon[deg]  |  lat[deg]  |   alt[m]||   Ve[m/s]|   Vn[m/s]|   Vu[m/s]||    roll[deg]|  pitch[deg]| heading[deg]|"

/-- One `fprintf` item of the output writer: the header text (`header_text`), a newline, a blank,
or a number printed with `% *.*f` (width, precision, value; the printed number holds no
newline). -/
inductive Piece (K : Type) where
  | header : Piece K
  | nl : Piece K
  | sp : Piece K
  | num (width prec : Nat) (x : K) : Piece K

/-- Output stream behind `fp` of `pony_ins_sample_app_write_output`: everything written since
`fopen(.., "w")` and the number of `fclose` calls issued on the handle. -/
structure OutFile (K : Type) where
  written : List (Piece K)
  fclose_calls : Nat

/-- One `printf` item on the console. -/
inductive Console (K : Type) where
  | error_input : Console K
  | error_output : Console K
  | label : Console K
  | bkspc : Console K
  | time (x : K) : Console K

/-- What the plugins get from outside this source file.
* `ulong_bits`: width of `unsigned long`;
* `freq`: `atof` at the value of token `freq` in `pony->imu->cfg`, `none` when
  `pony_locate_token` returns `NULL`;
* `sensors_in`: content of the file named by `sensors_in`, `none` when `fopen(.., "r")` fails;
* `out_creatable`: whether `fopen(.., "w")` on the file named by `out` succeeds;
* `sscanf`: the values converted by `sscanf(buffer, "%lg %lg %lg %lg %lg %lg", ..)`, in order. -/
structure Env (K : Type) where
  ulong_bits : Nat
  freq : Option K
  sensors_in : Option (List Char)
  out_creatable : Bool
  sscanf : List Char → List K

/-- Bus, static variables of the four plugins, console, and the outside world.
* `sync_dt`, `sync_i`: `dt` and `i` of `pony_ins_sample_app_step_sync` (`i` is an
  `unsigned long`, kept below `2 ^ ulong_bits` by the increment);
* `in_fp`: `fp` of `pony_ins_sample_app_read_input`; `out_fp`: `fp` of
  `pony_ins_sample_app_write_output`; `none` is `NULL`;
* `counter`: `counter` of `pony_ins_sample_app_print_progress`;
* `console`: what `printf` wrote;
* `ub`: a stream function was called on a `NULL` or closed stream. -/
structure World (K : Type) where
  env : Env K
  pony : pony_struct K
  sync_dt : K
  sync_i : Nat
  in_fp : Option InFile
  out_fp : Option (OutFile K)
  counter : Int
  console : List (Console K)
  ub : Bool

/-- Characters stored by one `fgets` call that may still store `n` characters: stops after a
newline, at end of file, or when `n` characters are stored.  Returns the stored characters and the
rest of the stream. -/
def fgets_take : Nat → List Char → List Char × List Char
  | 0, cs => ([], cs)
  | _ + 1, [] => ([], [])
  | n + 1, c :: cs =>
    if c = '\n' then ([c], cs)
    else ((c :: (fgets_take n cs).1), (fgets_take n cs).2)

/-- The call `fgets(buffer, size, fp)`: `none` (NULL) at end of file, else the line stored (at most
`size - 1` characters) and the rest of the stream. -/
def fgets (size : Nat) (stream : List Char) : Option (List Char × List Char) :=
  match stream with
  | [] => none
  | _ :: _ => some (fgets_take (size - 1) stream)

variable {K : Type}

/-- Stores converted by `sscanf` into `w[0], w[1], w[2], f[0], f[1], f[2]`: only the targets of
the conversions that succeeded are assigned. -/
def store_scanned (vals : List K) (imu : pony_imu K) : pony_imu K :=
  match vals with
  | [] => imu
  | [a0] => { imu with w := { imu.w with x0 := a0 } }
  | [a0, a1] => { imu with w := { imu.w with x0 := a0, x1 := a1 } }
  | [a0, a1, a2] => { imu with w := ⟨a0, a1, a2⟩ }
  | [a0, a1, a2, s0] => { imu with w := ⟨a0, a1, a2⟩, f := { imu.f with x0 := s0 } }
  | [a0, a1, a2, s0, s1] =>
    { imu with w := ⟨a0, a1, a2⟩, f := { imu.f with x0 := s0, x1 := s1 } }
  | a0 :: a1 :: a2 :: s0 :: s1 :: s2 :: _ => { imu with w := ⟨a0, a1, a2⟩, f := ⟨s0, s1, s2⟩ }

/-- Range of admissible frequencies, `freq_range` of `pony_ins_sample_app_step_sync`. -/
def freq_range [LinearOrderedField K] : K × K := (50, 3200)

/-- Default frequency, `freq_default` of `pony_ins_sample_app_step_sync`. -/
def freq_default [LinearOrderedField K] : K := 100

/-- Required number of values in an input line, `n0` of `pony_ins_sample_app_read_input`. -/
def n0 : Nat := 6

/-- Printing interval in steps, `interval` of `pony_ins_sample_app_print_progress`. -/
def interval : Int := 1024

/-- The step size computed on initialisation of `pony_ins_sample_app_step_sync` (lines 105-113):
`freq` is the value found in the configuration (`none`: token not found), `dt` the old value of
the static variable. -/
def init_dt [LinearOrderedField K] (freq : Option K) (dt : K) : K :=
  let dt1 : K := match freq with
    | some v => v
    | none => dt
  let dt2 : K :=
    if freq.isNone = true ∨ dt1 < freq_range.1 ∨ freq_range.2 < dt1 then freq_default else dt1
  1 / dt2

/-- The function `pony_ins_sample_app_step_sync`. -/
def pony_ins_sample_app_step_sync [LinearOrderedField K] (s : World K) : World K :=
  match s.pony.imu with
  | none => s
  | some imu =>
    if s.pony.mode = 0 then
      { s with pony := { s.pony with t := 0 }, sync_i := 0,
               sync_dt := init_dt s.env.freq s.sync_dt }
    else if s.pony.mode < 0 then s
    else
      let i : Nat := (s.sync_i + 1) % 2 ^ s.env.ulong_bits
      { s with
        pony := { s.pony with
          imu := some { imu with w_valid := false, f_valid := false, t := (i : K) * s.sync_dt } },
        sync_i := i }

/-- The function `pony_ins_sample_app_read_input`. -/
def pony_ins_sample_app_read_input [LinearOrderedField K] (s : World K) : World K :=
  match s.pony.imu with
  | none => s
  | some imu =>
    if s.pony.mode = 0 then
      match s.env.sensors_in with
      | none =>
        { s with in_fp := none, console := s.console ++ [Console.error_input],
                 pony := { s.pony with mode := -1 } }
      | some content =>
        match fgets PONY_INS_SAMPLE_APP_BUFFER_SIZE content with
        | none => { s with in_fp := some ⟨content, 0⟩ }
        | some (_, rest) => { s with in_fp := some ⟨rest, 0⟩ }
    else if s.pony.mode < 0 then
      match s.in_fp with
      | none => s
      | some fp =>
        { s with in_fp := some { fp with fclose_calls := fp.fclose_calls + 1 },
                 ub := s.ub || decide (0 < fp.fclose_calls) }
    else
      let imu0 : pony_imu K := { imu with w_valid := false, f_valid := false }
      match s.in_fp with
      | none => { s with pony := { s.pony with imu := some imu0 }, ub := true }
      | some fp =>
        if 0 < fp.fclose_calls then
          { s with pony := { s.pony with imu := some imu0 }, ub := true }
        else
          match fgets PONY_INS_SAMPLE_APP_BUFFER_SIZE fp.rest with
          | none => { s with pony := { s.pony with imu := some imu0, mode := -1 } }
          | some (line, rest) =>
            let vals : List K := (s.env.sscanf line).take 6
            let imu1 : pony_imu K := store_scanned vals imu0
            if vals.length < n0 then
              { s with in_fp := some { fp with rest := rest },
                       pony := { s.pony with imu := some imu1 } }
            else
              { s with
                in_fp := some { fp with rest := rest },
                pony := { s.pony with
                  imu := some { imu1 with
                    w := ⟨imu1.w.x0 / s.pony.rad2deg, imu1.w.x1 / s.pony.rad2deg,
                          imu1.w.x2 / s.pony.rad2deg⟩,
                    w_valid := true, f_valid := true } } }

/-- The ten `fprintf` fields of one output record with their separators, in the order of the
source: time, `llh[0]`, `llh[1]` (times `rad2deg`), `llh[2]`, `v[0..2]`, `rpy[0..2]` (times
`rad2deg`); widths and precisions from `fmt`. -/
def record [LinearOrderedField K] (rad2deg : K) (imu : pony_imu K) : List (Piece K) :=
  [Piece.nl, Piece.num 11 5 imu.t,
   Piece.sp, Piece.sp, Piece.num 13 8 (imu.sol.llh.x0 * rad2deg),
   Piece.sp, Piece.num 12 8 (imu.sol.llh.x1 * rad2deg),
   Piece.sp, Piece.num 9 3 imu.sol.llh.x2,
   Piece.sp, Piece.sp, Piece.num 10 4 imu.sol.v.x0,
   Piece.sp, Piece.num 10 4 imu.sol.v.x1,
   Piece.sp, Piece.num 10 4 imu.sol.v.x2,
   Piece.sp, Piece.sp, Piece.num 13 8 (imu.sol.rpy.x0 * rad2deg),
   Piece.sp, Piece.num 12 8 (imu.sol.rpy.x1 * rad2deg),
   Piece.sp, Piece.num 13 8 (imu.sol.rpy.x2 * rad2deg)]

/-- The function `pony_ins_sample_app_write_output`. -/
def pony_ins_sample_app_write_output [LinearOrderedField K] (s : World K) : World K :=
  match s.pony.imu with
  | none => s
  | some imu =>
    if s.pony.mode = 0 then
      if s.env.out_creatable = true then
        { s with out_fp := some ⟨[Piece.header], 0⟩ }
      else
        { s with out_fp := none, console := s.console ++ [Console.error_output],
                 pony := { s.pony with mode := -1 } }
    else if s.pony.mode < 0 then
      match s.out_fp with
      | none => s
      | some fp =>
        { s with out_fp := some { fp with fclose_calls := fp.fclose_calls + 1 },
                 ub := s.ub || decide (0 < fp.fclose_calls) }
    else
      match s.out_fp with
      | none => { s with ub := true }
      | some fp =>
        if 0 < fp.fclose_calls then { s with ub := true }
        else
          { s with out_fp := some { fp with written := fp.written ++ record s.pony.rad2deg imu } }

/-- The function `pony_ins_sample_app_print_progress`.  The `long` counter is
an integer (its overflow is not modelled). -/
def pony_ins_sample_app_print_progress [LinearOrderedField K] (s : World K) : World K :=
  match s.pony.imu with
  | none => s
  | some imu =>
    if s.pony.mode = 0 then
      { s with console := s.console ++ [Console.label, Console.time imu.t], counter := 0 }
    else if s.pony.mode < 0 then
      { s with console := s.console ++ [Console.bkspc, Console.time imu.t] }
    else
      { s with
        console :=
          if s.counter % interval = 0 then s.console ++ [Console.bkspc, Console.time imu.t]
          else s.console,
        counter := s.counter + 1 }

/-- Sets `pony->mode`, as the core does between the phases. -/
def set_mode (m : Int) (s : World K) : World K :=
  { s with pony := { s.pony with mode := m } }

/-- The four plugins of this program. -/
inductive Plugin where
  | step_sync : Plugin
  | read_input : Plugin
  | write_output : Plugin
  | print_progress : Plugin

/-- One invocation of a plugin. -/
def invoke [LinearOrderedField K] (p : Plugin) (s : World K) : World K :=
  match p with
  | Plugin.step_sync => pony_ins_sample_app_step_sync s
  | Plugin.read_input => pony_ins_sample_app_read_input s
  | Plugin.write_output => pony_ins_sample_app_write_output s
  | Plugin.print_progress => pony_ins_sample_app_print_progress s

/-- A sequence of plugin invocations, first to last. -/
def invoke_all [LinearOrderedField K] : List Plugin → World K → World K
  | [], s => s
  | p :: ps, s => invoke_all ps (invoke p s)

/-- Data records as they stand in the input file: each followed by a newline. -/
def source_records : List (List Char) → List Char
  | [] => []
  | r :: rs => r ++ '\n' :: source_records rs

/-- An input file: the header line, then the data records. -/
def source (header : List Char) (records : List (List Char)) : List Char :=
  header ++ '\n' :: source_records records

/-- Time `pony->imu->t`, when the inertial subsystem is configured. -/
def imu_time (s : World K) : Option K :=
  s.pony.imu.map pony_imu.t

/-- Content of the sink behind the output writer's handle (empty without a handle). -/
def sink (s : World K) : List (Piece K) :=
  match s.out_fp with
  | some fp => fp.written
  | none => []

/-- Whether a piece is the newline. -/
def Piece.is_nl : Piece K → Bool
  | Piece.nl => true
  | _ => false

/-- The first line of a piece sequence and the lines after it (split at newlines). -/
def split_lines : List (Piece K) → List (Piece K) × List (List (Piece K))
  | [] => ([], [])
  | p :: ps =>
    if p.is_nl = true then ([], (split_lines ps).1 :: (split_lines ps).2)
    else (p :: (split_lines ps).1, (split_lines ps).2)

/-- The lines of a sink content. -/
def lines (ps : List (Piece K)) : List (List (Piece K)) :=
  (split_lines ps).1 :: (split_lines ps).2

/-- The numeric fields of a line, in order. -/
def fields : List (Piece K) → List K
  | [] => []
  | Piece.num _ _ x :: ps => x :: fields ps
  | _ :: ps => fields ps

/-- The record the output writer appends for a bus (nothing without inertial subsystem). -/
def record_of_bus [LinearOrderedField K] (b : pony_struct K) : List (Piece K) :=
  match b.imu with
  | some imu => record b.rad2deg imu
  | none => []

/-- The records appended for a list of buses, in order. -/
def records_of_buses [LinearOrderedField K] : List (pony_struct K) → List (Piece K)
  | [] => []
  | b :: bs => record_of_bus b ++ records_of_buses bs

/-- Successive Run invocations of the output writer, the bus being `b` at each of them. -/
def write_runs [LinearOrderedField K] : List (pony_struct K) → World K → World K
  | [], s => s
  | b :: bs, s => write_runs bs (pony_ins_sample_app_write_output { s with pony := b })

/-! ### Sample data (over `ℚ`) -/

/-- A navigation solution. -/
def sample_sol : pony_sol ℚ :=
  { llh := ⟨1, 2, 3⟩, v := ⟨4, 5, 6⟩, rpy := ⟨7, 8, 9⟩ }

/-- An inertial subsystem whose time is 5 and whose validity flags are set. -/
def sample_imu : pony_imu ℚ :=
  { t := 5, w := ⟨0, 0, 0⟩, w_valid := true, f := ⟨0, 0, 0⟩, f_valid := true, sol := sample_sol }

/-- A scanner: line `6` converts six values, line `3` converts three, other lines none. -/
def sample_sscanf (line : List Char) : List ℚ :=
  if line = ['6', '\n'] then [180, 90, 45, 1, 2, 3]
  else if line = ['3', '\n'] then [1, 2, 3]
  else []

/-- An input file: header `h`, then the records `6`, `3`, `6`. -/
def sample_file : List Char :=
  source ['h'] [['6'], ['3'], ['6']]

/-- An outside world: 64-bit `unsigned long`, `freq = 400`, readable input, creatable output. -/
def sample_env : Env ℚ :=
  { ulong_bits := 64, freq := some 400, sensors_in := some sample_file, out_creatable := true,
    sscanf := sample_sscanf }

/-- A world before any plugin ran, with the given mode. -/
def sample_world (mode : Int) : World ℚ :=
  { env := sample_env, pony := { t := 3, imu := some sample_imu, rad2deg := 180, mode := mode },
    sync_dt := -1, sync_i := 7, in_fp := none, out_fp := none, counter := 0, console := [],
    ub := false }

/-- A world whose input file holds header `h` and one record of 1023 characters. -/
def long_record_world : World ℚ :=
  { sample_world 0 with
    env := { sample_env with sensors_in := some (source ['h'] [List.replicate 1023 'x']) } }

/-- A world whose `unsigned long` has 32 bits. -/
def ulong32_world : World ℚ :=
  { sample_world 0 with env := { sample_env with ulong_bits := 32 } }

/-- A world in Run mode with an open input stream holding the records `3` and `6`. -/
def ingest_world : World ℚ :=
  { sample_world 1 with in_fp := some ⟨source_records [['3'], ['6']], 0⟩ }

/-- A world in Run mode with an open input stream holding the record `6`. -/
def ingest_world6 : World ℚ :=
  { sample_world 1 with in_fp := some ⟨source_records [['6']], 0⟩ }

/-- A world in Terminate mode with both handles acquired and not yet released. -/
def terminate_world : World ℚ :=
  { sample_world (-1) with in_fp := some ⟨[], 0⟩, out_fp := some ⟨[Piece.header], 0⟩ }

/-- Three buses in Run mode, at times 1/400, 2/400, 3/400. -/
def sample_buses : List (pony_struct ℚ) :=
  [{ t := 0, imu := some { sample_imu with t := 1 / 400 }, rad2deg := 180, mode := 1 },
   { t := 0, imu := some { sample_imu with t := 2 / 400 }, rad2deg := 180, mode := 1 },
   { t := 0, imu := some { sample_imu with t := 3 / 400 }, rad2deg := 180, mode := 1 }]

/-- A world in Run mode with conversion constant `c` and an open input stream whose next record
converts to an angular rate of 180 about the first axis. -/
def unit_world [LinearOrderedField K] (c : K) : World K :=
  { env := { ulong_bits := 64, freq := none, sensors_in := none, out_creatable := false,
             sscanf := fun _ => [180, 0, 0, 0, 0, 0] },
    pony := { t := 0,
              imu := some ⟨0, ⟨0, 0, 0⟩, false, ⟨0, 0, 0⟩, false,
                           ⟨⟨0, 0, 0⟩, ⟨0, 0, 0⟩, ⟨0, 0, 0⟩⟩⟩,
              rad2deg := c, mode := 1 },
    sync_dt := -1, sync_i := 0, in_fp := some ⟨['6', '\n'], 0⟩, out_fp := none, counter := 0,
    console := [], ub := false }

/-! ## Theorems -/

theorem split_lines_append_nl (xs ys : List (Piece K)) :
    split_lines (xs ++ Piece.nl :: ys)
      = ((split_lines xs).1, (split_lines xs).2 ++ lines ys) := by
  induction xs with
  | nil => simp [split_lines, lines, Piece.is_nl]
  | cons p ps ih =>
    by_cases hp : p.is_nl = true
    · simp [split_lines, hp, ih, lines]
    · simp [split_lines, hp, ih]

theorem lines_append_nl (xs ys : List (Piece K)) :
    lines (xs ++ Piece.nl :: ys) = lines xs ++ lines ys := by
  simp [lines, split_lines_append_nl]

theorem split_lines_no_nl (xs : List (Piece K)) (h : ∀ p ∈ xs, p.is_nl = false) :
    split_lines xs = (xs, []) := by
  induction xs with
  | nil => rfl
  | cons p ps ih =>
    have hp : p.is_nl = false := h p (List.mem_cons_self _ _)
    have hps := ih (fun q hq => h q (List.mem_cons_of_mem _ hq))
    simp [split_lines, hp, hps]

theorem lines_no_nl (xs : List (Piece K)) (h : ∀ p ∈ xs, p.is_nl = false) :
    lines xs = [xs] := by
  simp [lines, split_lines_no_nl xs h]

theorem store_scanned_valid (vals : List K) (imu : pony_imu K) :
    (store_scanned vals imu).w_valid = imu.w_valid ∧
    (store_scanned vals imu).f_valid = imu.f_valid := by
  unfold store_scanned
  split <;> exact ⟨rfl, rfl⟩

section
variable [LinearOrderedField K]

/-! ### Time-sync plugin -/

theorem init_dt_in_range (f dt : K) (h50 : 50 ≤ f) (h3200 : f ≤ 3200) :
    init_dt (some f) dt = 1 / f := by
  have h1 : ¬ f < 50 := not_lt.mpr h50
  have h2 : ¬ 3200 < f := not_lt.mpr h3200
  simp [init_dt, freq_range, h1, h2]

theorem init_dt_absent (dt : K) : init_dt none dt = 1 / 100 := by
  simp [init_dt, freq_default]

theorem init_dt_out_of_range (f dt : K) (h : f < 50 ∨ 3200 < f) :
    init_dt (some f) dt = 1 / 100 := by
  simp [init_dt, freq_range, freq_default, h]

theorem step_sync_init_sync_dt (s : World K) (imu : pony_imu K) (hi : s.pony.imu = some imu)
    (hm : s.pony.mode = 0) : (pony_ins_sample_app_step_sync s).sync_dt = init_dt s.env.freq s.sync_dt := by
  unfold pony_ins_sample_app_step_sync
  simp only [hi, hm, if_true]

theorem step_sync_init_eq (s : World K) (imu : pony_imu K) (hi : s.pony.imu = some imu)
    (hm : s.pony.mode = 0) :
    pony_ins_sample_app_step_sync s =
      { s with
        pony := { s.pony with t := 0 }, sync_i := 0,
        sync_dt := init_dt s.env.freq s.sync_dt } := by
  unfold pony_ins_sample_app_step_sync
  simp only [hi, hm, if_true]

theorem step_sync_run_eq (s : World K) (imu : pony_imu K) (hi : s.pony.imu = some imu)
    (hm : 0 < s.pony.mode) :
    pony_ins_sample_app_step_sync s =
      { s with
        pony := { s.pony with
          imu := some { imu with
            w_valid := false, f_valid := false,
            t := (((s.sync_i + 1) % 2 ^ s.env.ulong_bits : Nat) : K) * s.sync_dt } },
        sync_i := (s.sync_i + 1) % 2 ^ s.env.ulong_bits } := by
  unfold pony_ins_sample_app_step_sync
  have h1 : ¬ s.pony.mode = 0 := by omega
  have h2 : ¬ s.pony.mode < 0 := by omega
  simp only [hi, h1, h2, if_false]

/-- C1. Frequency fallback: with the inertial subsystem configured and mode = 0, after the Init
invocation of the time-sync plugin the step size is `1 / f` when the configuration holds a
frequency `f` with `50 ≤ f ≤ 3200`, and `1 / 100` when the key is absent or `f < 50` or
`3200 < f`. -/
theorem step_sync_init_dt (s : World K) (imu : pony_imu K) (hi : s.pony.imu = some imu)
    (hm : s.pony.mode = 0) :
    (∀ f : K, s.env.freq = some f → 50 ≤ f → f ≤ 3200 → (pony_ins_sample_app_step_sync s).sync_dt = 1 / f) ∧
    (s.env.freq = none → (pony_ins_sample_app_step_sync s).sync_dt = 1 / 100) ∧
    (∀ f : K, s.env.freq = some f → f < 50 ∨ 3200 < f → (pony_ins_sample_app_step_sync s).sync_dt = 1 / 100) := by
  rw [step_sync_init_sync_dt s imu hi hm]
  refine ⟨?_, ?_, ?_⟩
  · intro f hf h50 h3200
    rw [hf, init_dt_in_range f s.sync_dt h50 h3200]
  · intro hf
    rw [hf, init_dt_absent]
  · intro f hf hout
    rw [hf, init_dt_out_of_range f s.sync_dt hout]

/-- Witness of C1 at `freq = 400`. -/
theorem step_sync_init_dt_witness : (pony_ins_sample_app_step_sync (sample_world 0)).sync_dt = 1 / 400 :=
  (step_sync_init_dt (sample_world 0) sample_imu rfl rfl).1 400 rfl (by norm_num) (by norm_num)

/-- C2. Freshness reset: with the inertial subsystem configured and mode > 0, whatever the two
validity flags were, after one Run invocation of the time-sync plugin both are false and the mode
is unchanged; the sensor-ingest plugin registered right after it starts on that state. -/
theorem step_sync_run_resets_validity (s : World K) (imu : pony_imu K)
    (hi : s.pony.imu = some imu) (hm : 0 < s.pony.mode) :
    (∃ imu1 : pony_imu K, (pony_ins_sample_app_step_sync s).pony.imu = some imu1 ∧
      imu1.w_valid = false ∧ imu1.f_valid = false) ∧
    (pony_ins_sample_app_step_sync s).pony.mode = s.pony.mode ∧
    invoke_all [Plugin.step_sync, Plugin.read_input] s = pony_ins_sample_app_read_input (pony_ins_sample_app_step_sync s) := by
  refine ⟨?_, ?_, rfl⟩
  · rw [step_sync_run_eq s imu hi hm]
    exact ⟨_, rfl, rfl, rfl⟩
  · rw [step_sync_run_eq s imu hi hm]

/-- Witness of C2: both flags are set before the Run invocation. -/
theorem step_sync_run_resets_validity_witness :
    sample_imu.w_valid = true ∧ sample_imu.f_valid = true ∧
    (∃ imu1 : pony_imu ℚ, (pony_ins_sample_app_step_sync (sample_world 1)).pony.imu = some imu1 ∧
      imu1.w_valid = false ∧ imu1.f_valid = false) :=
  ⟨rfl, rfl, (step_sync_run_resets_validity (sample_world 1) sample_imu rfl (by decide)).1⟩

/-- C9. At the failing input (inertial subsystem configured, mode = 0, `pony->imu->t = 5`,
`pony->t = 3`, step counter 7) the Init invocation of the time-sync plugin zeroes the step counter
and `pony->t`, and leaves `pony->imu->t`, the time advanced on Run and printed by the progress
reporter, at 5. -/
theorem step_sync_init_leaves_imu_time :
    (pony_ins_sample_app_step_sync (sample_world 0)).sync_i = 0 ∧
    (pony_ins_sample_app_step_sync (sample_world 0)).pony.t = 0 ∧
    imu_time (pony_ins_sample_app_step_sync (sample_world 0)) = some 5 ∧
    (pony_ins_sample_app_print_progress (pony_ins_sample_app_step_sync (sample_world 0))).console = [Console.label, Console.time 5] ∧
    imu_time (pony_ins_sample_app_step_sync (set_mode 1 (pony_ins_sample_app_step_sync (sample_world 0)))) = some (1 / 400) ∧
    (pony_ins_sample_app_step_sync (set_mode 1 (pony_ins_sample_app_step_sync (sample_world 0)))).pony.t = 0 := by
  norm_num [pony_ins_sample_app_step_sync, init_dt, freq_range, freq_default, interval, sample_world, sample_env, sample_imu, imu_time, pony_ins_sample_app_print_progress,
    set_mode]

theorem step_sync_runs_inv (s : World K) (imu : pony_imu K) (hi : s.pony.imu = some imu)
    (hm : 0 < s.pony.mode) (h0 : s.sync_i = 0) (k : Nat) :
    (pony_ins_sample_app_step_sync^[k] s).pony.mode = s.pony.mode ∧
    (pony_ins_sample_app_step_sync^[k] s).env = s.env ∧
    (pony_ins_sample_app_step_sync^[k] s).sync_dt = s.sync_dt ∧
    (pony_ins_sample_app_step_sync^[k] s).sync_i = k % 2 ^ s.env.ulong_bits ∧
    (∃ imu1 : pony_imu K, (pony_ins_sample_app_step_sync^[k] s).pony.imu = some imu1) ∧
    (1 ≤ k →
      imu_time (pony_ins_sample_app_step_sync^[k] s) = some (((k % 2 ^ s.env.ulong_bits : Nat) : K) * s.sync_dt)) := by
  induction k with
  | zero =>
    refine ⟨rfl, rfl, rfl, ?_, ⟨imu, hi⟩, ?_⟩
    · simp [h0, Nat.zero_mod]
    · intro h
      omega
  | succ k ih =>
    obtain ⟨ihm, ihe, ihdt, ihi, ⟨imu1, ihimu⟩, -⟩ := ih
    have hpos : 0 < (pony_ins_sample_app_step_sync^[k] s).pony.mode := by rw [ihm]; exact hm
    have hstep := step_sync_run_eq (pony_ins_sample_app_step_sync^[k] s) imu1 ihimu hpos
    have hi1 : ((pony_ins_sample_app_step_sync^[k] s).sync_i + 1) % 2 ^ (pony_ins_sample_app_step_sync^[k] s).env.ulong_bits
        = (k + 1) % 2 ^ s.env.ulong_bits := by
      rw [ihi, ihe, Nat.add_mod, Nat.mod_mod, ← Nat.add_mod]
    rw [Function.iterate_succ_apply', hstep]
    refine ⟨ihm, ihe, ihdt, hi1, ⟨_, rfl⟩, ?_⟩
    intro _
    simp only [imu_time, Option.map_some']
    rw [hi1, ihdt]

/-- C6 (amended). Tick clock: with the inertial subsystem configured, after one Init invocation
of the time-sync plugin (mode = 0) followed by `k` Run invocations (mode `m > 0`), for
`1 ≤ k < 2 ^ ulong_bits` the step counter is `k` and `pony->imu->t` is `k * dt`, the counter times
the step size fixed at Init; for a configured frequency of 400 this is `k / 400`. -/
theorem step_sync_tick_clock (s : World K) (imu : pony_imu K) (hi : s.pony.imu = some imu)
    (hm : s.pony.mode = 0) (m : Int) (hpos : 0 < m) (k : Nat) (hk1 : 1 ≤ k)
    (hk : k < 2 ^ s.env.ulong_bits) :
    (pony_ins_sample_app_step_sync^[k] (set_mode m (pony_ins_sample_app_step_sync s))).sync_i = k ∧
    (pony_ins_sample_app_step_sync^[k] (set_mode m (pony_ins_sample_app_step_sync s))).sync_dt = (pony_ins_sample_app_step_sync s).sync_dt ∧
    imu_time (pony_ins_sample_app_step_sync^[k] (set_mode m (pony_ins_sample_app_step_sync s)))
      = some ((k : K) * (pony_ins_sample_app_step_sync s).sync_dt) ∧
    (s.env.freq = some 400 →
      imu_time (pony_ins_sample_app_step_sync^[k] (set_mode m (pony_ins_sample_app_step_sync s))) = some ((k : K) / 400)) := by
  have hinit := step_sync_init_eq s imu hi hm
  have hi1 : (set_mode m (pony_ins_sample_app_step_sync s)).pony.imu = some imu := by
    rw [hinit]; exact hi
  have hm1 : 0 < (set_mode m (pony_ins_sample_app_step_sync s)).pony.mode := hpos
  have h01 : (set_mode m (pony_ins_sample_app_step_sync s)).sync_i = 0 := by
    rw [hinit]; rfl
  have henv : (set_mode m (pony_ins_sample_app_step_sync s)).env = s.env := by
    rw [hinit]; rfl
  obtain ⟨-, -, hdt, hcnt, -, htime⟩ :=
    step_sync_runs_inv (set_mode m (pony_ins_sample_app_step_sync s)) imu hi1 hm1 h01 k
  rw [henv, Nat.mod_eq_of_lt hk] at hcnt
  have ht := htime hk1
  rw [henv, Nat.mod_eq_of_lt hk] at ht
  have hdt1 : (set_mode m (pony_ins_sample_app_step_sync s)).sync_dt = (pony_ins_sample_app_step_sync s).sync_dt := rfl
  rw [hdt1] at hdt ht
  refine ⟨hcnt, hdt, ht, ?_⟩
  intro hf
  rw [ht]
  rw [step_sync_init_sync_dt s imu hi hm, hf,
    init_dt_in_range 400 s.sync_dt (by norm_num) (by norm_num), mul_one_div]

/-- Witness of C6: at 400 Hz the time after ticks 1, 2, 3 is 0.0025, 0.005, 0.0075. -/
theorem step_sync_tick_clock_witness :
    imu_time (pony_ins_sample_app_step_sync^[1] (set_mode 1 (pony_ins_sample_app_step_sync (sample_world 0)))) = some (0.0025 : ℚ) ∧
    imu_time (pony_ins_sample_app_step_sync^[2] (set_mode 1 (pony_ins_sample_app_step_sync (sample_world 0)))) = some (0.005 : ℚ) ∧
    imu_time (pony_ins_sample_app_step_sync^[3] (set_mode 1 (pony_ins_sample_app_step_sync (sample_world 0)))) = some (0.0075 : ℚ) := by
  have h1 := (step_sync_tick_clock (sample_world 0) sample_imu rfl rfl 1 (by decide) 1
    (by decide) (by decide)).2.2.2 rfl
  have h2 := (step_sync_tick_clock (sample_world 0) sample_imu rfl rfl 1 (by decide) 2
    (by decide) (by decide)).2.2.2 rfl
  have h3 := (step_sync_tick_clock (sample_world 0) sample_imu rfl rfl 1 (by decide) 3
    (by decide) (by decide)).2.2.2 rfl
  rw [h1, h2, h3]
  norm_num

/-- Counterexample of C6 as stated: with a 64-bit (resp. 32-bit) `unsigned long`, after Init and
`2 ^ 64` (resp. `2 ^ 32`) Run invocations at 400 Hz the counter has wrapped to zero and
`pony->imu->t` is zero, not `k * dt`. -/
theorem step_sync_tick_clock_wraps :
    imu_time (pony_ins_sample_app_step_sync^[2 ^ 64] (set_mode 1 (pony_ins_sample_app_step_sync (sample_world 0)))) = some 0 ∧
    (some 0 : Option ℚ) ≠ some (((2 ^ 64 : Nat) : ℚ) * (pony_ins_sample_app_step_sync (sample_world 0)).sync_dt) ∧
    imu_time (pony_ins_sample_app_step_sync^[2 ^ 32] (set_mode 1 (pony_ins_sample_app_step_sync ulong32_world))) = some 0 ∧
    (some 0 : Option ℚ) ≠ some (((2 ^ 32 : Nat) : ℚ) * (pony_ins_sample_app_step_sync ulong32_world).sync_dt) := by
  have hdt : (pony_ins_sample_app_step_sync (sample_world 0)).sync_dt = 1 / 400 :=
    (step_sync_init_sync_dt (sample_world 0) sample_imu rfl rfl).trans
      (init_dt_in_range 400 _ (by norm_num) (by norm_num))
  have hdt32 : (pony_ins_sample_app_step_sync ulong32_world).sync_dt = 1 / 400 :=
    (step_sync_init_sync_dt ulong32_world sample_imu rfl rfl).trans
      (init_dt_in_range 400 _ (by norm_num) (by norm_num))
  have hinit := step_sync_init_eq (sample_world 0) sample_imu rfl rfl
  have hinit32 := step_sync_init_eq ulong32_world sample_imu rfl rfl
  have a := (step_sync_runs_inv (set_mode 1 (pony_ins_sample_app_step_sync (sample_world 0))) sample_imu
    (by rw [hinit]; rfl) (by decide) (by rw [hinit]; rfl) (2 ^ 64)).2.2.2.2.2 Nat.one_le_two_pow
  have b := (step_sync_runs_inv (set_mode 1 (pony_ins_sample_app_step_sync ulong32_world)) sample_imu
    (by rw [hinit32]; rfl) (by decide) (by rw [hinit32]; rfl) (2 ^ 32)).2.2.2.2.2
      Nat.one_le_two_pow
  have e64 : (set_mode 1 (pony_ins_sample_app_step_sync (sample_world 0))).env.ulong_bits = 64 := by
    rw [hinit]; rfl
  have e32 : (set_mode 1 (pony_ins_sample_app_step_sync ulong32_world)).env.ulong_bits = 32 := by
    rw [hinit32]; rfl
  rw [e64, Nat.mod_self, Nat.cast_zero, zero_mul] at a
  rw [e32, Nat.mod_self, Nat.cast_zero, zero_mul] at b
  refine ⟨a, ?_, b, ?_⟩
  · rw [hdt]; norm_num
  · rw [hdt32]; norm_num

/-! ### Sensor-ingest plugin -/

theorem fgets_take_line (r rest : List Char) (hr : '\n' ∉ r) (n : Nat) (hn : r.length < n) :
    fgets_take n (r ++ '\n' :: rest) = (r ++ ['\n'], rest) := by
  induction r generalizing n with
  | nil =>
    cases n with
    | zero => simp at hn
    | succ n => simp [fgets_take]
  | cons c cs ih =>
    cases n with
    | zero => simp at hn
    | succ n =>
      have hc : c ≠ '\n' := fun h => hr (by simp [h])
      have hcs : '\n' ∉ cs := fun h => hr (List.mem_cons_of_mem _ h)
      have hlen : cs.length < n := by simpa using hn
      simp [fgets_take, hc, ih hcs n hlen]

theorem fgets_line (r rest : List Char) (hr : '\n' ∉ r) (hlen : r.length + 1 < PONY_INS_SAMPLE_APP_BUFFER_SIZE) :
    fgets PONY_INS_SAMPLE_APP_BUFFER_SIZE (r ++ '\n' :: rest) = some (r ++ ['\n'], rest) := by
  have h := fgets_take_line r rest hr (PONY_INS_SAMPLE_APP_BUFFER_SIZE - 1) (by omega)
  cases hr2 : r ++ '\n' :: rest with
  | nil => simp at hr2
  | cons c cs =>
    rw [hr2] at h
    simp only [fgets]
    rw [h]

theorem read_input_init_eq (s : World K) (imu : pony_imu K) (content line rest : List Char)
    (hi : s.pony.imu = some imu) (hm : s.pony.mode = 0)
    (hsrc : s.env.sensors_in = some content)
    (hline : fgets PONY_INS_SAMPLE_APP_BUFFER_SIZE content = some (line, rest)) :
    pony_ins_sample_app_read_input s = { s with in_fp := some ⟨rest, 0⟩ } := by
  unfold pony_ins_sample_app_read_input
  simp only [hi, hm, hsrc, hline, if_true]

theorem read_input_run_eof (s : World K) (imu : pony_imu K) (fp : InFile)
    (hi : s.pony.imu = some imu) (hm : 0 < s.pony.mode) (hfp : s.in_fp = some fp)
    (hopen : fp.fclose_calls = 0) (heof : fp.rest = []) :
    pony_ins_sample_app_read_input s =
      { s with pony := { s.pony with
          imu := some { imu with w_valid := false, f_valid := false }, mode := -1 } } := by
  unfold pony_ins_sample_app_read_input
  have h1 : ¬ s.pony.mode = 0 := by omega
  have h2 : ¬ s.pony.mode < 0 := by omega
  simp only [hi, h1, h2, hfp, hopen, heof, fgets, lt_irrefl, if_false]

theorem read_input_run_line (s : World K) (imu : pony_imu K) (fp : InFile)
    (line rest : List Char)
    (hi : s.pony.imu = some imu) (hm : 0 < s.pony.mode) (hfp : s.in_fp = some fp)
    (hopen : fp.fclose_calls = 0) (hline : fgets PONY_INS_SAMPLE_APP_BUFFER_SIZE fp.rest = some (line, rest)) :
    pony_ins_sample_app_read_input s =
      if ((s.env.sscanf line).take 6).length < 6 then
        { s with
          in_fp := some { fp with rest := rest },
          pony := { s.pony with
            imu := some (store_scanned ((s.env.sscanf line).take 6)
              { imu with w_valid := false, f_valid := false }) } }
      else
        { s with
          in_fp := some { fp with rest := rest },
          pony := { s.pony with
            imu := some { store_scanned ((s.env.sscanf line).take 6)
                { imu with w_valid := false, f_valid := false } with
              w := ⟨(store_scanned ((s.env.sscanf line).take 6)
                      { imu with w_valid := false, f_valid := false }).w.x0 / s.pony.rad2deg,
                    (store_scanned ((s.env.sscanf line).take 6)
                      { imu with w_valid := false, f_valid := false }).w.x1 / s.pony.rad2deg,
                    (store_scanned ((s.env.sscanf line).take 6)
                      { imu with w_valid := false, f_valid := false }).w.x2 / s.pony.rad2deg⟩,
              w_valid := true, f_valid := true } } } := by
  unfold pony_ins_sample_app_read_input
  have h1 : ¬ s.pony.mode = 0 := by omega
  have h2 : ¬ s.pony.mode < 0 := by omega
  simp only [hi, h1, h2, hfp, hopen, hline, lt_irrefl, if_false, n0]


/-- C4. Malformed-record tolerance: with the inertial subsystem configured, mode > 0 and an open
input stream whose next record converts fewer than six fields, after the Run invocation of the
sensor-ingest plugin both validity flags are false and the mode is what it was. -/
theorem read_input_malformed_record (s : World K) (imu : pony_imu K) (fp : InFile)
    (line rest : List Char)
    (hi : s.pony.imu = some imu) (hm : 0 < s.pony.mode) (hfp : s.in_fp = some fp)
    (hopen : fp.fclose_calls = 0) (hline : fgets PONY_INS_SAMPLE_APP_BUFFER_SIZE fp.rest = some (line, rest))
    (hn : (s.env.sscanf line).length < 6) :
    (∃ imu1 : pony_imu K, (pony_ins_sample_app_read_input s).pony.imu = some imu1 ∧
      imu1.w_valid = false ∧ imu1.f_valid = false) ∧
    (pony_ins_sample_app_read_input s).pony.mode = s.pony.mode ∧
    (pony_ins_sample_app_read_input s).ub = s.ub := by
  have hlen : ((s.env.sscanf line).take 6).length < 6 := by
    rw [List.length_take]; omega
  rw [read_input_run_line s imu fp line rest hi hm hfp hopen hline, if_pos hlen]
  refine ⟨⟨_, rfl, ?_, ?_⟩, rfl, rfl⟩
  · exact (store_scanned_valid _ _).1
  · exact (store_scanned_valid _ _).2

/-- Witness of C4: the next record of `ingest_world` is `3`, which converts three fields; the
flags are set and the mode is 1 before the invocation. -/
theorem read_input_malformed_record_witness :
    sample_imu.w_valid = true ∧ sample_imu.f_valid = true ∧
    (∃ imu1 : pony_imu ℚ, (pony_ins_sample_app_read_input ingest_world).pony.imu = some imu1 ∧
      imu1.w_valid = false ∧ imu1.f_valid = false) ∧
    (pony_ins_sample_app_read_input ingest_world).pony.mode = 1 :=
  ⟨rfl, rfl,
    (read_input_malformed_record ingest_world sample_imu ⟨source_records [['3'], ['6']], 0⟩
      ['3', '\n'] (source_records [['6']]) rfl (by decide) rfl rfl (by decide)
      (by decide)).1,
    (read_input_malformed_record ingest_world sample_imu ⟨source_records [['3'], ['6']], 0⟩
      ['3', '\n'] (source_records [['6']]) rfl (by decide) rfl rfl (by decide)
      (by decide)).2.1⟩

/-- C5. Well-formed record and unit conversion: with the inertial subsystem configured, mode > 0
and an open input stream whose next record converts to `(a0, a1, a2, s0, s1, s2)`, after the Run
invocation of the sensor-ingest plugin the angular rate is `(a0 / c, a1 / c, a2 / c)` with
`c = rad2deg`, the specific force is `(s0, s1, s2)`, both validity flags are true and the mode is
what it was.  Over the reals, an angular-rate input of 180 with `180 / c = π` gives `π`. -/
theorem read_input_wellformed_record :
    (∀ (s : World K) (imu : pony_imu K) (fp : InFile) (line rest : List Char)
        (a0 a1 a2 s0 s1 s2 : K),
      s.pony.imu = some imu → 0 < s.pony.mode → s.in_fp = some fp → fp.fclose_calls = 0 →
      fgets PONY_INS_SAMPLE_APP_BUFFER_SIZE fp.rest = some (line, rest) →
      s.env.sscanf line = [a0, a1, a2, s0, s1, s2] →
      (∃ imu1 : pony_imu K, (pony_ins_sample_app_read_input s).pony.imu = some imu1 ∧
        imu1.w.x0 = a0 / s.pony.rad2deg ∧ imu1.w.x1 = a1 / s.pony.rad2deg ∧
        imu1.w.x2 = a2 / s.pony.rad2deg ∧
        imu1.f.x0 = s0 ∧ imu1.f.x1 = s1 ∧ imu1.f.x2 = s2 ∧
        imu1.w_valid = true ∧ imu1.f_valid = true) ∧
      (pony_ins_sample_app_read_input s).pony.mode = s.pony.mode) ∧
    (∀ (s : World ℝ) (imu : pony_imu ℝ) (fp : InFile) (line rest : List Char)
        (a1 a2 s0 s1 s2 : ℝ),
      s.pony.imu = some imu → 0 < s.pony.mode → s.in_fp = some fp → fp.fclose_calls = 0 →
      fgets PONY_INS_SAMPLE_APP_BUFFER_SIZE fp.rest = some (line, rest) →
      s.env.sscanf line = [180, a1, a2, s0, s1, s2] →
      180 / s.pony.rad2deg = Real.pi →
      ∃ imu1 : pony_imu ℝ, (pony_ins_sample_app_read_input s).pony.imu = some imu1 ∧ imu1.w.x0 = Real.pi) := by
  have key : ∀ {F : Type} [LinearOrderedField F] (s : World F) (imu : pony_imu F) (fp : InFile)
      (line rest : List Char) (a0 a1 a2 s0 s1 s2 : F),
      s.pony.imu = some imu → 0 < s.pony.mode → s.in_fp = some fp → fp.fclose_calls = 0 →
      fgets PONY_INS_SAMPLE_APP_BUFFER_SIZE fp.rest = some (line, rest) →
      s.env.sscanf line = [a0, a1, a2, s0, s1, s2] →
      (∃ imu1 : pony_imu F, (pony_ins_sample_app_read_input s).pony.imu = some imu1 ∧
        imu1.w.x0 = a0 / s.pony.rad2deg ∧ imu1.w.x1 = a1 / s.pony.rad2deg ∧
        imu1.w.x2 = a2 / s.pony.rad2deg ∧
        imu1.f.x0 = s0 ∧ imu1.f.x1 = s1 ∧ imu1.f.x2 = s2 ∧
        imu1.w_valid = true ∧ imu1.f_valid = true) ∧
      (pony_ins_sample_app_read_input s).pony.mode = s.pony.mode := by
    intro F _ s imu fp line rest a0 a1 a2 s0 s1 s2 hi hm hfp hopen hline hv
    have hlen : ¬ ((s.env.sscanf line).take 6).length < 6 := by
      rw [hv]; simp
    rw [read_input_run_line s imu fp line rest hi hm hfp hopen hline, if_neg hlen, hv]
    exact ⟨⟨_, rfl, rfl, rfl, rfl, rfl, rfl, rfl, rfl, rfl⟩, rfl⟩
  refine ⟨fun s imu fp line rest a0 a1 a2 s0 s1 s2 => key s imu fp line rest a0 a1 a2 s0 s1 s2,
    ?_⟩
  intro s imu fp line rest a1 a2 s0 s1 s2 hi hm hfp hopen hline hv hpi
  obtain ⟨⟨imu1, h1, h2, -⟩, -⟩ := key s imu fp line rest 180 a1 a2 s0 s1 s2 hi hm hfp hopen hline hv
  exact ⟨imu1, h1, by rw [h2, hpi]⟩

/-- Witness of C5: the next record of `ingest_world6` converts to `(180, 90, 45, 1, 2, 3)` with
`rad2deg = 180`; over the reals, `unit_world (180 / π)` gives `π`. -/
theorem read_input_wellformed_record_witness :
    (∃ imu1 : pony_imu ℚ, (pony_ins_sample_app_read_input ingest_world6).pony.imu = some imu1 ∧
      imu1.w.x0 = 180 / 180 ∧ imu1.w.x1 = 90 / 180 ∧ imu1.w.x2 = 45 / 180 ∧
      imu1.f.x0 = 1 ∧ imu1.f.x1 = 2 ∧ imu1.f.x2 = 3 ∧
      imu1.w_valid = true ∧ imu1.f_valid = true) ∧
    (∃ imu1 : pony_imu ℝ, (pony_ins_sample_app_read_input (unit_world (180 / Real.pi))).pony.imu = some imu1 ∧
      imu1.w.x0 = Real.pi) :=
  ⟨((@read_input_wellformed_record ℚ _).1 ingest_world6 sample_imu ⟨source_records [['6']], 0⟩
      ['6', '\n'] [] 180 90 45 1 2 3 rfl (by decide) rfl rfl (by decide) (by decide)).1,
   (@read_input_wellformed_record ℚ _).2 (unit_world (180 / Real.pi))
      ⟨0, ⟨0, 0, 0⟩, false, ⟨0, 0, 0⟩, false, ⟨⟨0, 0, 0⟩, ⟨0, 0, 0⟩, ⟨0, 0, 0⟩⟩⟩
      ⟨['6', '\n'], 0⟩ ['6', '\n'] [] 0 0 0 0 0 rfl Int.one_pos rfl rfl (by decide) rfl
      (by
        show (180 : ℝ) / (180 / Real.pi) = Real.pi
        field_simp)⟩

theorem read_input_run_line_proj (s : World K) (imu : pony_imu K) (fp : InFile)
    (line rest : List Char)
    (hi : s.pony.imu = some imu) (hm : 0 < s.pony.mode) (hfp : s.in_fp = some fp)
    (hopen : fp.fclose_calls = 0) (hline : fgets PONY_INS_SAMPLE_APP_BUFFER_SIZE fp.rest = some (line, rest)) :
    (pony_ins_sample_app_read_input s).pony.mode = s.pony.mode ∧
    (pony_ins_sample_app_read_input s).in_fp = some { fp with rest := rest } ∧
    (pony_ins_sample_app_read_input s).ub = s.ub ∧
    (pony_ins_sample_app_read_input s).env = s.env ∧
    (∃ imu1 : pony_imu K, (pony_ins_sample_app_read_input s).pony.imu = some imu1) := by
  rw [read_input_run_line s imu fp line rest hi hm hfp hopen hline]
  split
  · exact ⟨rfl, rfl, rfl, rfl, ⟨_, rfl⟩⟩
  · exact ⟨rfl, rfl, rfl, rfl, ⟨_, rfl⟩⟩

theorem fgets_take_full (r rest : List Char) (hr : '\n' ∉ r) :
    fgets_take r.length (r ++ rest) = (r, rest) := by
  induction r with
  | nil => simp [fgets_take]
  | cons c cs ih =>
    have hc : c ≠ '\n' := fun h => hr (by simp [h])
    have hcs : '\n' ∉ cs := fun h => hr (List.mem_cons_of_mem _ h)
    simp [fgets_take, hc, ih hcs]

theorem read_input_runs_inv (records : List (List Char))
    (hr : ∀ r ∈ records, '\n' ∉ r ∧ r.length + 1 < PONY_INS_SAMPLE_APP_BUFFER_SIZE)
    (s : World K) (imu : pony_imu K) (hi : s.pony.imu = some imu) (hm : 0 < s.pony.mode)
    (hfp : s.in_fp = some ⟨source_records records, 0⟩) (k : Nat) (hk : k ≤ records.length) :
    (pony_ins_sample_app_read_input^[k] s).pony.mode = s.pony.mode ∧
    (pony_ins_sample_app_read_input^[k] s).in_fp = some ⟨source_records (records.drop k), 0⟩ ∧
    (pony_ins_sample_app_read_input^[k] s).ub = s.ub ∧
    (∃ imu1 : pony_imu K, (pony_ins_sample_app_read_input^[k] s).pony.imu = some imu1) := by
  induction k with
  | zero => exact ⟨rfl, by simpa using hfp, rfl, ⟨imu, hi⟩⟩
  | succ k ih =>
    have hlt : k < records.length := by omega
    obtain ⟨ihm, ihfp, ihub, ⟨imu1, ihimu⟩⟩ := ih (by omega)
    have hpos : 0 < (pony_ins_sample_app_read_input^[k] s).pony.mode := by rw [ihm]; exact hm
    have hdrop : records.drop k = records[k] :: records.drop (k + 1) :=
      List.drop_eq_getElem_cons hlt
    have hrk := hr records[k] (List.getElem_mem _)
    have hline : fgets PONY_INS_SAMPLE_APP_BUFFER_SIZE
        (InFile.mk (source_records (records.drop k)) 0).rest
        = some (records[k] ++ ['\n'], source_records (records.drop (k + 1))) := by
      rw [hdrop]
      exact fgets_line _ _ hrk.1 hrk.2
    obtain ⟨h1, h2, h3, -, h5⟩ :=
      read_input_run_line_proj (pony_ins_sample_app_read_input^[k] s) imu1 _ _ _ ihimu hpos ihfp rfl hline
    rw [Function.iterate_succ_apply']
    exact ⟨h1.trans ihm, h2, h3.trans ihub, h5⟩

/-- C3 (amended). Graceful end of input: for an input file made of a header line and `N` data
records, each line newline-terminated and short enough for one `fgets` call (fewer than
`BUFFER_SIZE - 1` characters before the newline), after a successful Init of the sensor-ingest
plugin each of the first `N` Run invocations (mode `m > 0`) consumes exactly one record and leaves
the mode at `m`, and the `(N+1)`-th Run invocation sets the mode to `-1`. -/
theorem read_input_graceful_eof (s : World K) (imu : pony_imu K) (header : List Char)
    (records : List (List Char)) (m : Int)
    (hi : s.pony.imu = some imu) (hm : s.pony.mode = 0) (hpos : 0 < m)
    (hsrc : s.env.sensors_in = some (source header records))
    (hh : '\n' ∉ header ∧ header.length + 1 < PONY_INS_SAMPLE_APP_BUFFER_SIZE)
    (hr : ∀ r ∈ records, '\n' ∉ r ∧ r.length + 1 < PONY_INS_SAMPLE_APP_BUFFER_SIZE) :
    (∀ k : Nat, k ≤ records.length →
      (pony_ins_sample_app_read_input^[k] (set_mode m (pony_ins_sample_app_read_input s))).pony.mode = m ∧
      (pony_ins_sample_app_read_input^[k] (set_mode m (pony_ins_sample_app_read_input s))).in_fp
        = some ⟨source_records (records.drop k), 0⟩ ∧
      (pony_ins_sample_app_read_input^[k] (set_mode m (pony_ins_sample_app_read_input s))).ub = s.ub) ∧
    (pony_ins_sample_app_read_input^[records.length + 1] (set_mode m (pony_ins_sample_app_read_input s))).pony.mode = -1 := by
  have hinit := read_input_init_eq s imu (source header records) (header ++ ['\n'])
    (source_records records) hi hm hsrc (fgets_line header _ hh.1 hh.2)
  have hi1 : (set_mode m (pony_ins_sample_app_read_input s)).pony.imu = some imu := by
    rw [hinit]; exact hi
  have hm1 : 0 < (set_mode m (pony_ins_sample_app_read_input s)).pony.mode := hpos
  have hfp1 : (set_mode m (pony_ins_sample_app_read_input s)).in_fp = some ⟨source_records records, 0⟩ := by
    rw [hinit]; rfl
  have hub1 : (set_mode m (pony_ins_sample_app_read_input s)).ub = s.ub := by
    rw [hinit]; rfl
  have inv := read_input_runs_inv records hr (set_mode m (pony_ins_sample_app_read_input s)) imu hi1 hm1 hfp1
  constructor
  · intro k hk
    obtain ⟨h1, h2, h3, -⟩ := inv k hk
    exact ⟨h1, h2, h3.trans hub1⟩
  · obtain ⟨h1, h2, -, ⟨imu1, h4⟩⟩ := inv records.length le_rfl
    have hpos1 : 0 < (pony_ins_sample_app_read_input^[records.length] (set_mode m (pony_ins_sample_app_read_input s))).pony.mode := by
      rw [h1]; exact hpos
    rw [List.drop_length] at h2
    rw [Function.iterate_succ_apply',
      read_input_run_eof _ imu1 ⟨source_records [], 0⟩ h4 hpos1 h2 rfl rfl]

/-- Witness of C3: header and three records; the mode is 1 after the third Run invocation and
`-1` after the fourth. -/
theorem read_input_graceful_eof_witness :
    (pony_ins_sample_app_read_input^[3] (set_mode 1 (pony_ins_sample_app_read_input (sample_world 0)))).pony.mode = 1 ∧
    (pony_ins_sample_app_read_input^[4] (set_mode 1 (pony_ins_sample_app_read_input (sample_world 0)))).pony.mode = -1 :=
  ⟨((read_input_graceful_eof (sample_world 0) sample_imu ['h'] [['6'], ['3'], ['6']] 1 rfl rfl
      (by decide) rfl (by decide) (by decide)).1 3 (by decide)).1,
   (read_input_graceful_eof (sample_world 0) sample_imu ['h'] [['6'], ['3'], ['6']] 1 rfl rfl
      (by decide) rfl (by decide) (by decide)).2⟩

/-- Counterexample of C3 as stated: the input file holds a header and `N = 1` data record, of
1023 characters.  The first Run invocation stops inside the record (its newline is left in the
stream), and the second one, instead of turning the mode negative, leaves it at 1. -/
theorem read_input_long_record :
    long_record_world.env.sensors_in = some (source ['h'] [List.replicate 1023 'x']) ∧
    (pony_ins_sample_app_read_input^[1] (set_mode 1 (pony_ins_sample_app_read_input long_record_world))).in_fp = some ⟨['\n'], 0⟩ ∧
    (pony_ins_sample_app_read_input^[2] (set_mode 1 (pony_ins_sample_app_read_input long_record_world))).pony.mode = 1 := by
  have hinit := read_input_init_eq long_record_world sample_imu
    (source ['h'] [List.replicate 1023 'x']) ['h', '\n']
    (source_records [List.replicate 1023 'x']) rfl rfl rfl
    (fgets_line ['h'] _ (by decide) (by decide))
  have hx : '\n' ∉ List.replicate 1023 'x' := by
    intro h
    have := List.eq_of_mem_replicate h
    exact absurd this (by decide)
  have hline1 : fgets PONY_INS_SAMPLE_APP_BUFFER_SIZE
      (InFile.mk (source_records [List.replicate 1023 'x']) 0).rest
      = some (List.replicate 1023 'x', ['\n']) := by
    have h := fgets_take_full (List.replicate 1023 'x') ['\n'] hx
    rw [List.length_replicate] at h
    show fgets 1024 (List.replicate 1023 'x' ++ ['\n']) = _
    rw [show List.replicate 1023 'x' ++ ['\n']
        = 'x' :: (List.replicate 1022 'x' ++ ['\n']) from rfl] at h ⊢
    simp only [fgets]
    rw [show 1024 - 1 = 1023 from rfl, h]
  obtain ⟨a1, a2, -, -, ⟨imu1, a5⟩⟩ :=
    read_input_run_line_proj (set_mode 1 (pony_ins_sample_app_read_input long_record_world)) sample_imu
      ⟨source_records [List.replicate 1023 'x'], 0⟩ (List.replicate 1023 'x') ['\n']
      (by rw [hinit]; rfl) (by decide) (by rw [hinit]; rfl) rfl hline1
  have hpos : 0 < (pony_ins_sample_app_read_input (set_mode 1 (pony_ins_sample_app_read_input long_record_world))).pony.mode := by
    rw [a1]; decide
  obtain ⟨b1, -⟩ :=
    read_input_run_line_proj (pony_ins_sample_app_read_input (set_mode 1 (pony_ins_sample_app_read_input long_record_world))) imu1
      ⟨['\n'], 0⟩ ['\n'] [] a5 hpos a2 rfl (by decide)
  refine ⟨rfl, ?_, ?_⟩
  · rw [Function.iterate_succ_apply', Function.iterate_zero_apply]
    exact a2
  · rw [Function.iterate_succ_apply', Function.iterate_succ_apply', Function.iterate_zero_apply,
      b1, a1]
    rfl

/-! ### Terminate invocations -/

theorem write_output_terminate_none (s : World K) (hm : s.pony.mode < 0)
    (hfp : s.out_fp = none) : pony_ins_sample_app_write_output s = s := by
  unfold pony_ins_sample_app_write_output
  have h1 : ¬ s.pony.mode = 0 := by omega
  cases hi : s.pony.imu with
  | none => rfl
  | some imu => simp only [h1, hm, hfp, if_true, if_false]

theorem write_output_terminate_some (s : World K) (imu : pony_imu K) (fp : OutFile K)
    (hi : s.pony.imu = some imu) (hm : s.pony.mode < 0) (hfp : s.out_fp = some fp) :
    pony_ins_sample_app_write_output s =
      { s with out_fp := some { fp with fclose_calls := fp.fclose_calls + 1 },
               ub := s.ub || decide (0 < fp.fclose_calls) } := by
  unfold pony_ins_sample_app_write_output
  have h1 : ¬ s.pony.mode = 0 := by omega
  simp only [hi, h1, hm, hfp, if_true, if_false]

theorem step_sync_mode (s : World K) : (pony_ins_sample_app_step_sync s).pony.mode = s.pony.mode := by
  unfold pony_ins_sample_app_step_sync
  repeat' split
  all_goals rfl

theorem print_progress_mode (s : World K) : (pony_ins_sample_app_print_progress s).pony.mode = s.pony.mode := by
  unfold pony_ins_sample_app_print_progress
  repeat' split
  all_goals rfl

theorem read_input_mode (s : World K) :
    (pony_ins_sample_app_read_input s).pony.mode = s.pony.mode ∨ (pony_ins_sample_app_read_input s).pony.mode = -1 := by
  unfold pony_ins_sample_app_read_input
  repeat' split
  all_goals first
    | exact Or.inl rfl
    | exact Or.inr rfl
    | (dsimp only
       split <;> exact Or.inl rfl)

theorem write_output_mode (s : World K) :
    (pony_ins_sample_app_write_output s).pony.mode = s.pony.mode ∨ (pony_ins_sample_app_write_output s).pony.mode = -1 := by
  unfold pony_ins_sample_app_write_output
  repeat' split
  all_goals first
    | exact Or.inl rfl
    | exact Or.inr rfl

theorem invoke_mode (p : Plugin) (s : World K) :
    (invoke p s).pony.mode = s.pony.mode ∨ (invoke p s).pony.mode = -1 := by
  cases p with
  | step_sync => exact Or.inl (step_sync_mode s)
  | read_input => exact read_input_mode s
  | write_output => exact write_output_mode s
  | print_progress => exact Or.inl (print_progress_mode s)

theorem invoke_mode_negative (p : Plugin) (s : World K) (h : s.pony.mode < 0) :
    (invoke p s).pony.mode < 0 := by
  rcases invoke_mode p s with h1 | h1
  · rw [h1]; exact h
  · rw [h1]; decide

theorem invoke_all_mode_negative (ps : List Plugin) (s : World K) (h : s.pony.mode < 0) :
    (invoke_all ps s).pony.mode < 0 := by
  induction ps generalizing s with
  | nil => exact h
  | cons p ps ih => exact ih (invoke p s) (invoke_mode_negative p s h)

/-- C8. Terminate is absorbing: an invocation of any of the four plugins, in any phase, leaves the
bus mode as it was or sets it to `-1`; hence with mode < 0 the mode after the invocation is
negative, and after any sequence of plugin invocations it is still negative. -/
theorem mode_negative_absorbing (p : Plugin) (ps : List Plugin) (s : World K) :
    ((invoke p s).pony.mode = s.pony.mode ∨ (invoke p s).pony.mode = -1) ∧
    (s.pony.mode < 0 → (invoke p s).pony.mode < 0) ∧
    (s.pony.mode < 0 → (invoke_all ps s).pony.mode < 0) :=
  ⟨invoke_mode p s, invoke_mode_negative p s, invoke_all_mode_negative ps s⟩

/-- Witness of C8: from mode `-1`, the mode is negative after an invocation of the sensor-ingest
plugin and after a pass over the four plugins followed by a second pass. -/
theorem mode_negative_absorbing_witness :
    (invoke Plugin.read_input terminate_world).pony.mode < 0 ∧
    (invoke_all [Plugin.step_sync, Plugin.read_input, Plugin.write_output,
      Plugin.print_progress, Plugin.step_sync, Plugin.read_input, Plugin.write_output,
      Plugin.print_progress] terminate_world).pony.mode < 0 :=
  ⟨(mode_negative_absorbing Plugin.read_input [] terminate_world).2.1 (by decide),
   (mode_negative_absorbing Plugin.read_input [Plugin.step_sync, Plugin.read_input,
      Plugin.write_output, Plugin.print_progress, Plugin.step_sync, Plugin.read_input,
      Plugin.write_output, Plugin.print_progress] terminate_world).2.2 (by decide)⟩

/-! ### Output-writer plugin -/

theorem write_output_init_eq (s : World K) (imu : pony_imu K) (hi : s.pony.imu = some imu)
    (hm : s.pony.mode = 0) (hc : s.env.out_creatable = true) :
    pony_ins_sample_app_write_output s = { s with out_fp := some ⟨[Piece.header], 0⟩ } := by
  unfold pony_ins_sample_app_write_output
  simp only [hi, hm, hc, if_true]

theorem write_output_run_eq (s : World K) (imu : pony_imu K) (fp : OutFile K)
    (hi : s.pony.imu = some imu) (hm : 0 < s.pony.mode) (hfp : s.out_fp = some fp)
    (hopen : fp.fclose_calls = 0) :
    pony_ins_sample_app_write_output s =
      { s with out_fp := some { fp with written := fp.written ++ record s.pony.rad2deg imu } } := by
  unfold pony_ins_sample_app_write_output
  have h1 : ¬ s.pony.mode = 0 := by omega
  have h2 : ¬ s.pony.mode < 0 := by omega
  simp only [hi, h1, h2, hfp, hopen, lt_irrefl, if_false]

theorem write_output_sink_terminate (s : World K) (hm : s.pony.mode < 0) :
    sink (pony_ins_sample_app_write_output s) = sink s := by
  cases hi : s.pony.imu with
  | none =>
    unfold pony_ins_sample_app_write_output
    simp only [hi]
  | some imu =>
    cases hfp : s.out_fp with
    | none => rw [write_output_terminate_none s hm hfp]
    | some fp =>
      rw [write_output_terminate_some s imu fp hi hm hfp]
      simp only [sink, hfp]

theorem write_runs_written (buses : List (pony_struct K))
    (hb : ∀ b ∈ buses, 0 < b.mode ∧ ∃ imu1 : pony_imu K, b.imu = some imu1)
    (s : World K) (ws : List (Piece K)) (hfp : s.out_fp = some ⟨ws, 0⟩) :
    (write_runs buses s).out_fp = some ⟨ws ++ records_of_buses buses, 0⟩ := by
  induction buses generalizing s ws with
  | nil => simpa [write_runs, records_of_buses] using hfp
  | cons b bs ih =>
    obtain ⟨hpos, imu1, himu⟩ := hb b (List.mem_cons_self _ _)
    have hstep := write_output_run_eq { s with pony := b } imu1 ⟨ws, 0⟩ himu hpos hfp rfl
    have hrec : record_of_bus b = record b.rad2deg imu1 := by
      simp only [record_of_bus, himu]
    have h := ih (fun b1 hb1 => hb b1 (List.mem_cons_of_mem _ hb1))
      (pony_ins_sample_app_write_output { s with pony := b }) (ws ++ record b.rad2deg imu1) (by rw [hstep])
    simp only [write_runs, records_of_buses, hrec]
    rw [h, List.append_assoc]

theorem record_eq_nl_cons (c : K) (imu : pony_imu K) :
    record c imu = Piece.nl :: (record c imu).tail ∧
    ∀ p ∈ (record c imu).tail, p.is_nl = false := by
  constructor
  · rfl
  · intro p hp
    have hall : ((record c imu).tail.all fun q => !q.is_nl) = true := rfl
    simpa using List.all_eq_true.mp hall p hp

theorem lines_append_record (ws : List (Piece K)) (c : K) (imu : pony_imu K) :
    lines (ws ++ record c imu) = lines ws ++ [(record c imu).tail] := by
  obtain ⟨h1, h2⟩ := record_eq_nl_cons c imu
  rw [h1, lines_append_nl, lines_no_nl _ h2]
  rfl

theorem lines_records_of_buses (buses : List (pony_struct K))
    (hb : ∀ b ∈ buses, 0 < b.mode ∧ ∃ imu1 : pony_imu K, b.imu = some imu1)
    (ws : List (Piece K)) :
    lines (ws ++ records_of_buses buses)
      = lines ws ++ buses.map (fun b => (record_of_bus b).tail) := by
  induction buses generalizing ws with
  | nil => simp [records_of_buses]
  | cons b bs ih =>
    obtain ⟨-, imu1, himu⟩ := hb b (List.mem_cons_self _ _)
    have hrec : record_of_bus b = record b.rad2deg imu1 := by
      simp only [record_of_bus, himu]
    simp only [records_of_buses, List.map_cons]
    rw [← List.append_assoc, ih (fun b1 hb1 => hb b1 (List.mem_cons_of_mem _ hb1)), hrec,
      lines_append_record, List.append_assoc, List.singleton_append]

/-- C10. Output line count: with the inertial subsystem configured and a creatable sink, after one
Init invocation of the output-writer plugin followed by one Run invocation per bus of `buses`
(`N` of them, each with mode > 0 and the inertial subsystem configured), the sink holds `N + 1`
lines: the header, then one record per Run invocation, each with the ten numeric fields time,
`llh[0] * rad2deg`, `llh[1] * rad2deg`, `llh[2]`, `v[0..2]`, `rpy[0..2] * rad2deg`; an invocation
with mode < 0 appends nothing. -/
theorem write_output_line_count (s : World K) (imu : pony_imu K) (buses : List (pony_struct K))
    (hi : s.pony.imu = some imu) (hm : s.pony.mode = 0) (hc : s.env.out_creatable = true)
    (hb : ∀ b ∈ buses, 0 < b.mode ∧ ∃ imu1 : pony_imu K, b.imu = some imu1) :
    lines (sink (write_runs buses (pony_ins_sample_app_write_output s)))
      = [Piece.header] :: buses.map (fun b => (record_of_bus b).tail) ∧
    (lines (sink (write_runs buses (pony_ins_sample_app_write_output s)))).length = buses.length + 1 ∧
    (∀ b ∈ buses, ∀ imu1 : pony_imu K, b.imu = some imu1 →
      fields (record_of_bus b).tail
        = [imu1.t, imu1.sol.llh.x0 * b.rad2deg, imu1.sol.llh.x1 * b.rad2deg, imu1.sol.llh.x2,
           imu1.sol.v.x0, imu1.sol.v.x1, imu1.sol.v.x2,
           imu1.sol.rpy.x0 * b.rad2deg, imu1.sol.rpy.x1 * b.rad2deg,
           imu1.sol.rpy.x2 * b.rad2deg]) ∧
    (∀ t : World K, t.pony.mode < 0 → sink (pony_ins_sample_app_write_output t) = sink t) := by
  have hinit := write_output_init_eq s imu hi hm hc
  have hw := write_runs_written buses hb (pony_ins_sample_app_write_output s) [Piece.header] (by rw [hinit])
  have hlines : lines (sink (write_runs buses (pony_ins_sample_app_write_output s)))
      = [Piece.header] :: buses.map (fun b => (record_of_bus b).tail) := by
    simp only [sink, hw]
    rw [lines_records_of_buses buses hb]
    rfl
  refine ⟨hlines, ?_, ?_, fun t ht => write_output_sink_terminate t ht⟩
  · rw [hlines]
    simp
  · intro b _ imu1 himu
    simp only [record_of_bus, himu]
    rfl

/-- Witness of C10: header and three records, four lines. -/
theorem write_output_line_count_witness :
    (lines (sink (write_runs sample_buses (pony_ins_sample_app_write_output (sample_world 0))))).length = 3 + 1 :=
  (write_output_line_count (sample_world 0) sample_imu sample_buses rfl rfl rfl
    (by
      intro b hb
      simp only [sample_buses, List.mem_cons, List.mem_singleton, List.not_mem_nil,
        or_false] at hb
      rcases hb with h | h | h <;> (rw [h]; exact ⟨Int.one_pos, ⟨_, rfl⟩⟩))).2.1

end

end PonyInsSampleApp
